import Mathlib

/-!
Verification of the style-resolution core of a minimal web browser
(`src/dom/element.rs`, `src/dom/node.rs`, `src/style.rs`).

The DOM node model and the style resolver are translated from the Rust
source.  The CSS value / stylesheet data types and the selector-matching
predicate live in the repository's `css` module, which is outside the
sources given here; those are modelled from the specification, which
treats matching as an opaque boolean capability.
-/

namespace MiniBrowser

/-- Modelled from the spec: a CSS value is a keyword or another literal
variant; only `Keyword` is exercised by the cascade logic.  `Length`
stands for the non-keyword literal variants. -/
inductive CSSValue where
  | Keyword (s : String)
  | Length (len : Nat)
  deriving DecidableEq, Repr

/-- Modelled from the spec: the comparison operator of an attribute
selector; only equality is exercised by the code given here. -/
inductive AttributeSelectorOp where
  | Eq
  deriving DecidableEq, Repr

/-- Modelled from the spec: a selector is universal (`*`), a type
selector (tag name), or an attribute selector (tag name + attribute
name + operator + value). -/
inductive SimpleSelector where
  | UniversalSelector
  | TypeSelector (tag_name : String)
  | AttributeSelector (tag_name : String) (op : AttributeSelectorOp)
      (attr : String) (value : String)
  deriving DecidableEq, Repr

/-- A declaration: a property name paired with a CSS value
(`css::Declaration`). -/
structure Declaration where
  name : String
  value : CSSValue
  deriving DecidableEq, Repr

/-- A rule: alternative selectors paired with an ordered list of
declarations (`css::Rule`). -/
structure Rule where
  selectors : List SimpleSelector
  declarations : List Declaration
  deriving DecidableEq, Repr

/-- A stylesheet: an ordered list of rules (`css::Stylesheet`). -/
structure Stylesheet where
  rules : List Rule
  deriving DecidableEq, Repr

/-- `dom::element::Element`: a tag name and an attribute map.  The
attribute map (Rust `HashMap<String, String>`) is modelled as an
association list with unique keys looked up by `attrLookup`. -/
structure Element where
  tag_name : String
  attributes : List (String × String)
  deriving DecidableEq, Repr

/-- `dom::node::Text`: a raw character payload. -/
structure Text where
  data : String
  deriving DecidableEq, Repr

/-- `dom::node::NodeType`: element or text. -/
inductive NodeType where
  | element (e : Element)
  | text (t : Text)
  deriving DecidableEq, Repr

/-- `dom::node::Node`: a node type together with an ordered list of
children. -/
inductive Node where
  | mk (node_type : NodeType) (children : List Node)

/-- The `node_type` field of a `Node`. -/
def Node.node_type : Node → NodeType
  | .mk nt _ => nt

/-- The `children` field of a `Node`. -/
def Node.children : Node → List Node
  | .mk _ cs => cs

/-- Lookup in an attribute association list (Rust `HashMap::get`). -/
def attrLookup : List (String × String) → String → Option String
  | [], _ => none
  | (k, v) :: rest, key => if k = key then some v else attrLookup rest key

mutual

/-- `Node::inner_text` from `src/dom/node.rs`: maps each child to its
text payload when it is a `Text` node and to its own `inner_text`
otherwise, then joins the pieces with no separator. -/
def Node.inner_text : Node → String
  | .mk _ children => innerTextPieces children

/-- The concatenation of the `inner_text` pieces of a list of child
nodes, in order. -/
def innerTextPieces : List Node → String
  | [] => ""
  | c :: rest =>
    (match c.node_type with
     | .text t => t.data
     | _ => c.inner_text) ++ innerTextPieces rest

end

/-- Modelled from the spec: whether a single selector matches a node.
The universal selector matches every element; a type selector matches
by tag name; an attribute selector additionally compares the named
attribute's value.  Selectors match elements only. -/
def SimpleSelector.matches (s : SimpleSelector) (n : Node) : Bool :=
  match n.node_type with
  | .text _ => false
  | .element e =>
    match s with
    | .UniversalSelector => true
    | .TypeSelector tag_name => tag_name = e.tag_name
    | .AttributeSelector tag_name op attr value =>
      tag_name = e.tag_name
        && (match op with
            | .Eq => attrLookup e.attributes attr = some value)

/-- Modelled from the spec: a rule matches a node when at least one of
its selectors matches (per selector, then OR-reduced per rule). -/
def Rule.matches (r : Rule) (n : Node) : Bool :=
  r.selectors.any (fun s => s.matches n)

/-- `style::PropertyMap` (Rust `HashMap<String, CSSValue>`), modelled
as an association list with unique keys. -/
def PropertyMap := List (String × CSSValue)

instance : DecidableEq PropertyMap := by
  unfold PropertyMap
  infer_instance

/-- The empty property map (`PropertyMap::new()`). -/
def PropertyMap.empty : PropertyMap := []

/-- `HashMap::get`: the value recorded for a key, if any. -/
def PropertyMap.get : PropertyMap → String → Option CSSValue
  | [], _ => none
  | (k, v) :: rest, key =>
    if k = key then some v else PropertyMap.get rest key

/-- `HashMap::insert`: record a value for a key, replacing any
previous value for that key. -/
def PropertyMap.insert : PropertyMap → String → CSSValue → PropertyMap
  | [], key, v => [(key, v)]
  | (k0, v0) :: rest, key, v =>
    if k0 = key then (key, v) :: rest
    else (k0, v0) :: PropertyMap.insert rest key v

/-- `style::StyledNode`: a node type, its resolved properties, and the
surviving styled children.  (The Rust value borrows the `NodeType`; the
embedding stores it by value.) -/
inductive StyledNode where
  | mk (node_type : NodeType) (properties : PropertyMap)
      (children : List StyledNode)

/-- The `node_type` field of a `StyledNode`. -/
def StyledNode.node_type : StyledNode → NodeType
  | .mk nt _ _ => nt

/-- The `properties` field of a `StyledNode`. -/
def StyledNode.properties : StyledNode → PropertyMap
  | .mk _ props _ => props

/-- The `children` field of a `StyledNode`. -/
def StyledNode.children : StyledNode → List StyledNode
  | .mk _ _ cs => cs

/-- `style::Display`. -/
inductive Display where
  | Inline
  | Block
  | None
  deriving DecidableEq, Repr

/-- The inner loop of `to_styled_node`'s rule matching: insert every
declaration of a rule into the property map, in order. -/
def applyDeclarations (props : PropertyMap) (decls : List Declaration) :
    PropertyMap :=
  decls.foldl (fun m d => m.insert d.name d.value) props

/-- The rule-matching loop of `to_styled_node`: fold the declarations
of every matching rule, in stylesheet order, into the property map. -/
def applyMatchedRules (props : PropertyMap) (node : Node)
    (rules : List Rule) : PropertyMap :=
  (rules.filter (fun r => r.matches node)).foldl
    (fun m r => applyDeclarations m r.declarations) props

/-- The property map computed by `to_styled_node` after the rule loop,
display defaulting, the `display: none` check, and font-weight
defaulting, together with the pruning decision: `none` when the node is
pruned.  This is the straight-line part of `to_styled_node`. -/
def resolveProperties (node : Node) (stylesheet : Stylesheet) :
    Option PropertyMap :=
  let properties := applyMatchedRules PropertyMap.empty node stylesheet.rules
  let properties :=
    if properties.get "display" = none then
      properties.insert "display" (CSSValue.Keyword "inline")
    else properties
  if properties.get "display" = some (CSSValue.Keyword "none") then none
  else
    let properties :=
      if properties.get "font-weight" = none then
        properties.insert "font-weight" (CSSValue.Keyword "normal")
      else properties
    some properties

mutual

/-- `style::to_styled_node`: resolve the children, run the cascade and
defaulting on this node, and prune when the resolved `display` is the
keyword `none`. -/
def to_styled_node (node : Node) (stylesheet : Stylesheet) :
    Option StyledNode :=
  match node with
  | .mk nt children =>
    match resolveProperties (.mk nt children) stylesheet with
    | none => none
    | some properties =>
      some (.mk nt properties (to_styled_nodes children stylesheet))

/-- `style::to_styled_nodes`: resolve each node in order, dropping the
`None` results. -/
def to_styled_nodes (nodes : List Node) (stylesheet : Stylesheet) :
    List StyledNode :=
  match nodes with
  | [] => []
  | n :: rest =>
    match to_styled_node n stylesheet with
    | some sn => sn :: to_styled_nodes rest stylesheet
    | none => to_styled_nodes rest stylesheet

end

/-- `StyledNode::display`: classify the `display` property. -/
def StyledNode.display (sn : StyledNode) : Display :=
  match sn.properties.get "display" with
  | some (CSSValue.Keyword s) =>
    if s = "block" then Display.Block
    else if s = "none" then Display.None
    else Display.Inline
  | _ => Display.Inline

/-- Whether a rule contains a declaration for the given property name. -/
def Rule.declares (r : Rule) (key : String) : Bool :=
  r.declarations.any (fun d => d.name = key)

/-- The value of the last declaration with the given name in a
declaration list, if any. -/
def lastDeclValue : List Declaration → String → Option CSSValue
  | [], _ => none
  | d :: rest, key =>
    match lastDeclValue rest key with
    | some v => some v
    | none => if d.name = key then some d.value else none

/-- The value for a property name contributed by the last matching rule
that declares it (taking that rule's last declaration for the name),
if any. -/
def lastRuleValue : List Rule → Node → String → Option CSSValue
  | [], _, _ => none
  | r :: rest, n, key =>
    match lastRuleValue rest n key with
    | some v => some v
    | none => if r.matches n then lastDeclValue r.declarations key else none

theorem PropertyMap.get_insert (m : PropertyMap) (k key : String)
    (v : CSSValue) :
    (m.insert k v).get key = if k = key then some v else m.get key := by
  induction m with
  | nil => simp [PropertyMap.insert, PropertyMap.get]
  | cons hd tl ih =>
    obtain ⟨k0, v0⟩ := hd
    by_cases h0 : k0 = k
    · subst h0
      by_cases h1 : k0 = key <;>
        simp [PropertyMap.insert, PropertyMap.get, h1]
    · by_cases h1 : k0 = key
      · subst h1
        have hk : ¬ k = k0 := fun h => h0 h.symm
        simp [PropertyMap.insert, PropertyMap.get, h0, hk]
      · simp [PropertyMap.insert, PropertyMap.get, h0, h1, ih]

theorem applyDeclarations_get (ds : List Declaration) (m : PropertyMap)
    (key : String) :
    (applyDeclarations m ds).get key =
      match lastDeclValue ds key with
      | some v => some v
      | none => m.get key := by
  induction ds generalizing m with
  | nil => simp [applyDeclarations, lastDeclValue]
  | cons d rest ih =>
    show (applyDeclarations (m.insert d.name d.value) rest).get key = _
    rw [ih]
    cases hrest : lastDeclValue rest key with
    | some v => simp [lastDeclValue, hrest]
    | none =>
      by_cases hd : d.name = key <;>
        simp [lastDeclValue, hrest, PropertyMap.get_insert, hd]

theorem applyMatchedRules_get (rules : List Rule) (n : Node)
    (m : PropertyMap) (key : String) :
    (applyMatchedRules m n rules).get key =
      match lastRuleValue rules n key with
      | some v => some v
      | none => m.get key := by
  induction rules generalizing m with
  | nil => simp [applyMatchedRules, lastRuleValue]
  | cons r rest ih =>
    by_cases hr : r.matches n
    · have hstep : applyMatchedRules m n (r :: rest) =
          applyMatchedRules (applyDeclarations m r.declarations) n rest := by
        simp [applyMatchedRules, hr]
      rw [hstep, ih]
      cases hrest : lastRuleValue rest n key with
      | some v => simp [lastRuleValue, hrest]
      | none =>
        cases hdecl : lastDeclValue r.declarations key with
        | some v =>
          simp [lastRuleValue, hrest, hr, hdecl, applyDeclarations_get]
        | none =>
          simp [lastRuleValue, hrest, hr, hdecl, applyDeclarations_get]
    · have hstep : applyMatchedRules m n (r :: rest) =
          applyMatchedRules m n rest := by
        simp [applyMatchedRules, hr]
      rw [hstep, ih]
      cases hrest : lastRuleValue rest n key with
      | some v => simp [lastRuleValue, hrest]
      | none => simp [lastRuleValue, hrest, hr]

/-- The value the cascade (rule-matching loop, starting from the empty
map) records for a property name is the last matching declaration's
value. -/
theorem cascade_get (n : Node) (s : Stylesheet) (key : String) :
    (applyMatchedRules PropertyMap.empty n s.rules).get key =
      lastRuleValue s.rules n key := by
  rw [applyMatchedRules_get]
  cases h : lastRuleValue s.rules n key <;>
    simp [PropertyMap.empty, PropertyMap.get]

/-- The value resolved for a property name after the cascade and
defaulting: the cascade's value when some matching rule sets the name,
and the keyword `dflt` otherwise. -/
def defaultedValue (n : Node) (s : Stylesheet) (key dflt : String) :
    CSSValue :=
  match (applyMatchedRules PropertyMap.empty n s.rules).get key with
  | some v => v
  | none => CSSValue.Keyword dflt

/-- The node's resolved `display` value after rule application and
inline-defaulting. -/
def displayedValue (n : Node) (s : Stylesheet) : CSSValue :=
  defaultedValue n s "display" "inline"

theorem to_styled_node_eq (nt : NodeType) (children : List Node)
    (s : Stylesheet) :
    to_styled_node (Node.mk nt children) s =
      match resolveProperties (Node.mk nt children) s with
      | none => none
      | some props =>
        some (StyledNode.mk nt props (to_styled_nodes children s)) := rfl

theorem to_styled_nodes_nil (s : Stylesheet) :
    to_styled_nodes [] s = [] := rfl

theorem to_styled_nodes_cons (n : Node) (rest : List Node)
    (s : Stylesheet) :
    to_styled_nodes (n :: rest) s =
      match to_styled_node n s with
      | some sn => sn :: to_styled_nodes rest s
      | none => to_styled_nodes rest s := rfl

mutual

/-- The concatenation, in depth-first pre-order, of the text payloads
of a node and all of its descendants (the specification's description
of `inner_text`, stated as its own function for comparison). -/
def preorderTexts : Node → String
  | .mk nt children =>
    match nt with
    | .text t => t.data ++ preorderTextsList children
    | .element _ => preorderTextsList children

/-- The concatenation of `preorderTexts` over a list of nodes. -/
def preorderTextsList : List Node → String
  | [] => ""
  | c :: rest => preorderTexts c ++ preorderTextsList rest

end

mutual

/-- Whether every `Text` node in the tree is a leaf (the data model's
"empty for Text in practice" convention). -/
def textLeaves : Node → Bool
  | .mk nt children =>
    (match nt with
     | .text _ => children.isEmpty
     | .element _ => true) && textLeavesList children

/-- `textLeaves` over a list of nodes. -/
def textLeavesList : List Node → Bool
  | [] => true
  | c :: rest => textLeaves c && textLeavesList rest

end

mutual

/-- The number of nodes in a DOM tree. -/
def Node.size : Node → Nat
  | .mk _ children => 1 + sizeList children

/-- The total number of nodes in a list of DOM trees. -/
def sizeList : List Node → Nat
  | [] => 0
  | c :: rest => Node.size c + sizeList rest

end

mutual

/-- The number of nodes in a styled tree. -/
def StyledNode.size : StyledNode → Nat
  | .mk _ _ children => 1 + styledSizeList children

/-- The total number of nodes in a list of styled trees. -/
def styledSizeList : List StyledNode → Nat
  | [] => 0
  | c :: rest => StyledNode.size c + styledSizeList rest

end

mutual

/-- Whether a predicate holds at every node of a styled tree. -/
def allTree (p : StyledNode → Bool) : StyledNode → Bool
  | .mk nt props children =>
    p (.mk nt props children) && allTreeList p children

/-- Whether a predicate holds at every node of every tree in a list. -/
def allTreeList (p : StyledNode → Bool) : List StyledNode → Bool
  | [] => true
  | c :: rest => allTree p c && allTreeList p rest

end

/-- Both defaulted keys are present in the node's property map. -/
def hasRequiredProps (sn : StyledNode) : Bool :=
  (sn.properties.get "display").isSome &&
    (sn.properties.get "font-weight").isSome

/-- The node's `display` property is not the keyword `none`, and its
`display()` classification is not `Display.None`. -/
def displayNotNone (sn : StyledNode) : Bool :=
  decide (¬ sn.properties.get "display" =
      some (CSSValue.Keyword "none")) &&
    decide (¬ sn.display = Display.None)

/-- A concrete `<p id="test">` element with no children. -/
def exP : Node := .mk (.element ⟨"p", [("id", "test")]⟩) []

/-- A concrete `<div>` element with the `<p>` above as its child. -/
def exDiv : Node := .mk (.element ⟨"div", []⟩) [exP]

/-- A concrete stylesheet `div { display: none; }`. -/
def displayNoneSheet : Stylesheet :=
  ⟨[⟨[.TypeSelector "div"], [⟨"display", .Keyword "none"⟩]⟩]⟩

/-- A concrete stylesheet `* { display: block; } p { display: inline; }`
whose two rules both match `exP` and both set `display`. -/
def overrideSheet : Stylesheet :=
  ⟨[⟨[.UniversalSelector], [⟨"display", .Keyword "block"⟩]⟩,
    ⟨[.TypeSelector "p"], [⟨"display", .Keyword "inline"⟩]⟩]⟩

/-- The empty stylesheet. -/
def emptySheet : Stylesheet := ⟨[]⟩

/-- The styled node produced for `exP` under `overrideSheet`. -/
def styledP : StyledNode :=
  .mk (.element ⟨"p", [("id", "test")]⟩)
    [("display", .Keyword "inline"), ("font-weight", .Keyword "normal")] []

/-- The styled node produced for `exP` under the empty stylesheet. -/
def styledPDefault : StyledNode :=
  .mk (.element ⟨"p", [("id", "test")]⟩)
    [("display", .Keyword "inline"), ("font-weight", .Keyword "normal")] []

/-- The styled node produced for `exDiv` under the empty stylesheet. -/
def styledDivDefault : StyledNode :=
  .mk (.element ⟨"div", []⟩)
    [("display", .Keyword "inline"), ("font-weight", .Keyword "normal")]
    [styledPDefault]

/-- A small mixed tree: `<div>"a"<p>"b"</p></div>`. -/
def exTree : Node :=
  .mk (.element ⟨"div", []⟩)
    [.mk (.text ⟨"a"⟩) [],
     .mk (.element ⟨"p", []⟩) [.mk (.text ⟨"b"⟩) []]]

/-- A chain of `Text` nodes with children: text "a" above text "b"
above text "c". -/
def textChain : Node :=
  .mk (.text ⟨"a"⟩) [.mk (.text ⟨"b"⟩) [.mk (.text ⟨"c"⟩) []]]

theorem fw_ne_display : ¬ ("font-weight" : String) = "display" := by decide

/-- The property map produced by the rule-matching loop alone. -/
def cascadeMap (n : Node) (s : Stylesheet) : PropertyMap :=
  applyMatchedRules PropertyMap.empty n s.rules

/-- The property map after the rule-matching loop and the
`display: inline` defaulting step. -/
def afterDisplay (n : Node) (s : Stylesheet) : PropertyMap :=
  if (cascadeMap n s).get "display" = none then
    (cascadeMap n s).insert "display" (CSSValue.Keyword "inline")
  else cascadeMap n s

theorem resolveProperties_eq (n : Node) (s : Stylesheet) :
    resolveProperties n s =
      if (afterDisplay n s).get "display" = some (CSSValue.Keyword "none")
      then none
      else some (if (afterDisplay n s).get "font-weight" = none then
          (afterDisplay n s).insert "font-weight" (CSSValue.Keyword "normal")
        else afterDisplay n s) := rfl

theorem afterDisplay_get_display (n : Node) (s : Stylesheet) :
    (afterDisplay n s).get "display" = some (displayedValue n s) := by
  unfold afterDisplay displayedValue defaultedValue cascadeMap
  cases hd : (applyMatchedRules PropertyMap.empty n s.rules).get "display" with
  | none => simp [hd, PropertyMap.get_insert]
  | some v => simp [hd]

theorem afterDisplay_get_other (n : Node) (s : Stylesheet) (key : String)
    (hk : ¬ key = "display") :
    (afterDisplay n s).get key = (cascadeMap n s).get key := by
  unfold afterDisplay
  cases hd : (cascadeMap n s).get "display" with
  | none =>
    have h1 : ¬ ("display" : String) = key := fun hh => hk hh.symm
    simp [hd, PropertyMap.get_insert, h1]
  | some v => simp [hd]

theorem resolveProperties_eq_none_iff (n : Node) (s : Stylesheet) :
    resolveProperties n s = none ↔
      displayedValue n s = CSSValue.Keyword "none" := by
  rw [resolveProperties_eq, afterDisplay_get_display]
  by_cases h : displayedValue n s = CSSValue.Keyword "none" <;> simp [h]

theorem resolveProperties_get (n : Node) (s : Stylesheet)
    (props : PropertyMap) (h : resolveProperties n s = some props)
    (key : String) :
    props.get key =
      if key = "display" then some (displayedValue n s)
      else if key = "font-weight" then
        some (defaultedValue n s "font-weight" "normal")
      else (cascadeMap n s).get key := by
  rw [resolveProperties_eq] at h
  by_cases hguard : (afterDisplay n s).get "display" =
      some (CSSValue.Keyword "none")
  · rw [if_pos hguard] at h
    cases h
  · rw [if_neg hguard] at h
    have hprops : props =
        if (afterDisplay n s).get "font-weight" = none then
          (afterDisplay n s).insert "font-weight" (CSSValue.Keyword "normal")
        else afterDisplay n s := by
      cases h
      rfl
    subst hprops
    have hfw_cascade : (afterDisplay n s).get "font-weight" =
        (cascadeMap n s).get "font-weight" :=
      afterDisplay_get_other n s "font-weight" fw_ne_display
    by_cases hfw : (afterDisplay n s).get "font-weight" = none
    · by_cases hk1 : key = "display"
      · subst hk1
        rw [if_pos rfl, if_pos hfw, PropertyMap.get_insert,
          if_neg fw_ne_display]
        exact afterDisplay_get_display n s
      · rw [if_neg hk1]
        by_cases hk2 : key = "font-weight"
        · subst hk2
          rw [if_pos rfl, if_pos hfw, PropertyMap.get_insert, if_pos rfl]
          unfold defaultedValue
          rw [show (applyMatchedRules PropertyMap.empty n s.rules).get
              "font-weight" = none from hfw_cascade.symm.trans hfw]
        · rw [if_neg hk2]
          have h2 : ¬ ("font-weight" : String) = key := fun hh => hk2 hh.symm
          rw [if_pos hfw, PropertyMap.get_insert, if_neg h2]
          exact afterDisplay_get_other n s key hk1
    · obtain ⟨w, hw⟩ := Option.ne_none_iff_exists'.mp hfw
      by_cases hk1 : key = "display"
      · subst hk1
        rw [if_pos rfl, if_neg hfw]
        exact afterDisplay_get_display n s
      · rw [if_neg hk1]
        by_cases hk2 : key = "font-weight"
        · subst hk2
          rw [if_pos rfl, if_neg hfw, hw]
          unfold defaultedValue
          rw [show (applyMatchedRules PropertyMap.empty n s.rules).get
              "font-weight" = some w from hfw_cascade.symm.trans hw]
        · rw [if_neg hk2, if_neg hfw]
          exact afterDisplay_get_other n s key hk1

theorem to_styled_node_some (n : Node) (s : Stylesheet) (sn : StyledNode)
    (h : to_styled_node n s = some sn) :
    resolveProperties n s = some sn.properties
    ∧ sn.node_type = n.node_type
    ∧ sn.children = to_styled_nodes n.children s := by
  cases n with
  | mk nt children =>
    rw [to_styled_node_eq] at h
    cases hr : resolveProperties (Node.mk nt children) s with
    | none =>
      rw [hr] at h
      cases h
    | some props =>
      rw [hr] at h
      cases h
      exact ⟨rfl, rfl, rfl⟩

theorem to_styled_node_eq_none_iff (n : Node) (s : Stylesheet) :
    to_styled_node n s = none ↔ resolveProperties n s = none := by
  cases n with
  | mk nt children =>
    rw [to_styled_node_eq]
    cases hr : resolveProperties (Node.mk nt children) s <;> simp

theorem to_styled_nodes_append (l1 l2 : List Node) (s : Stylesheet) :
    to_styled_nodes (l1 ++ l2) s =
      to_styled_nodes l1 s ++ to_styled_nodes l2 s := by
  induction l1 with
  | nil => rfl
  | cons c rest ih =>
    rw [List.cons_append, to_styled_nodes_cons, to_styled_nodes_cons]
    cases hc : to_styled_node c s <;> simp [ih]

theorem to_styled_nodes_eq_filterMap (nodes : List Node) (s : Stylesheet) :
    to_styled_nodes nodes s =
      nodes.filterMap (fun n => to_styled_node n s) := by
  induction nodes with
  | nil => rfl
  | cons c rest ih =>
    rw [to_styled_nodes_cons, List.filterMap_cons]
    cases hc : to_styled_node c s <;> simp [ih]

/-- C1: `to_styled_node` returns `None` exactly when the node's
resolved `display` value — after rule application and
inline-defaulting — is the keyword `none`; and a pruned node, together
with its entire subtree, is absent from its parent's styled children
list, whatever its own children's properties are. -/
theorem pruning_iff_display_none (n : Node) (s : Stylesheet) :
    (to_styled_node n s = none ↔
      displayedValue n s = CSSValue.Keyword "none")
    ∧ (to_styled_node n s = none → ∀ pre post : List Node,
        to_styled_nodes (pre ++ n :: post) s =
          to_styled_nodes (pre ++ post) s) := by
  constructor
  · rw [to_styled_node_eq_none_iff]
    exact resolveProperties_eq_none_iff n s
  · intro h pre post
    rw [to_styled_nodes_append, to_styled_nodes_append,
      to_styled_nodes_cons, h]

/-- Witness for C1: under `div { display: none; }` the `<div>` node is
pruned from a sibling list while the `<p>` survives. -/
theorem pruning_iff_display_none_witness :
    to_styled_nodes [exP, exDiv] displayNoneSheet =
      to_styled_nodes [exP] displayNoneSheet :=
  (pruning_iff_display_none exDiv displayNoneSheet).2 rfl [exP] []

/-- C7: `to_styled_nodes` returns exactly the `some`-results of
`to_styled_node` over the input in order (`List.filterMap`), dropping
`none` results and preserving the relative order of survivors; hence
the children of every resolved node are the `filterMap` of its source
children. -/
theorem to_styled_nodes_filterMap (nodes : List Node) (s : Stylesheet) :
    (to_styled_nodes nodes s =
      nodes.filterMap (fun n => to_styled_node n s))
    ∧ (∀ n sn, to_styled_node n s = some sn →
        sn.children = n.children.filterMap (fun c => to_styled_node c s)) := by
  refine ⟨to_styled_nodes_eq_filterMap nodes s, fun n sn h => ?_⟩
  rw [(to_styled_node_some n s sn h).2.2]
  exact to_styled_nodes_eq_filterMap n.children s

/-- Witness for C7: the `filterMap` characterization evaluated on a
concrete parent whose child list survives intact. -/
theorem to_styled_nodes_filterMap_witness :
    styledDivDefault.children =
      exDiv.children.filterMap (fun c => to_styled_node c emptySheet) :=
  (to_styled_nodes_filterMap [] emptySheet).2 exDiv styledDivDefault rfl

/-- C10: whenever `to_styled_node` returns `Some`, the result's
children are exactly `to_styled_nodes` of the node's own children with
the same stylesheet, and its property map is determined by the node
and stylesheet alone (`resolveProperties`), so no resolved property of
an ancestor influences a descendant. -/
theorem resolve_compositional (n : Node) (s : Stylesheet)
    (sn : StyledNode) (h : to_styled_node n s = some sn) :
    sn.children = to_styled_nodes n.children s
    ∧ resolveProperties n s = some sn.properties
    ∧ sn.node_type = n.node_type :=
  ⟨(to_styled_node_some n s sn h).2.2, (to_styled_node_some n s sn h).1,
   (to_styled_node_some n s sn h).2.1⟩

/-- Witness for C10: the compositional equations evaluated on the
concrete `<div><p/></div>` tree under the empty stylesheet. -/
theorem resolve_compositional_witness :
    styledDivDefault.children = to_styled_nodes exDiv.children emptySheet
    ∧ resolveProperties exDiv emptySheet = some styledDivDefault.properties
    ∧ styledDivDefault.node_type = exDiv.node_type :=
  resolve_compositional exDiv emptySheet styledDivDefault rfl

/-- C2: last-rule-wins.  The cascade's value for a property name is
the last matching declaration's value (later matching rules override
earlier ones, and within one rule later declarations override earlier
ones); and whenever resolution returns `Some`, the retained value of a
name some matching rule declares is exactly that last value. -/
theorem cascade_last_rule_wins (n : Node) (s : Stylesheet) (key : String) :
    (cascadeMap n s).get key = lastRuleValue s.rules n key
    ∧ (∀ sn, to_styled_node n s = some sn → ∀ v,
        lastRuleValue s.rules n key = some v →
        sn.properties.get key = some v) := by
  refine ⟨cascade_get n s key, fun sn h v hv => ?_⟩
  have hp := (to_styled_node_some n s sn h).1
  have hget := resolveProperties_get n s sn.properties hp key
  have hc : (applyMatchedRules PropertyMap.empty n s.rules).get key =
      some v := (cascade_get n s key).trans hv
  by_cases hk1 : key = "display"
  · subst hk1
    rw [hget, if_pos rfl]
    unfold displayedValue defaultedValue
    rw [hc]
  · by_cases hk2 : key = "font-weight"
    · subst hk2
      rw [hget, if_neg hk1, if_pos rfl]
      unfold defaultedValue
      rw [hc]
    · rw [hget, if_neg hk1, if_neg hk2]
      exact hc

/-- Witness for C2: `* { display: block; } p { display: inline; }`
both match the `<p>` element; the later rule's `inline` is retained. -/
theorem cascade_last_rule_wins_witness :
    styledP.properties.get "display" = some (CSSValue.Keyword "inline") :=
  (cascade_last_rule_wins exP overrideSheet "display").2 styledP rfl
    (CSSValue.Keyword "inline") rfl

theorem lastDeclValue_eq_none (ds : List Declaration) (key : String)
    (h : ∀ d ∈ ds, ¬ d.name = key) : lastDeclValue ds key = none := by
  induction ds with
  | nil => rfl
  | cons d rest ih =>
    have h1 := ih (fun d' hd' => h d' (List.mem_cons_of_mem d hd'))
    have h2 := h d (List.mem_cons_self d rest)
    simp [lastDeclValue, h1, h2]

theorem lastRuleValue_eq_none (rules : List Rule) (n : Node)
    (key : String)
    (h : ∀ r ∈ rules, r.matches n = true → r.declares key = false) :
    lastRuleValue rules n key = none := by
  induction rules with
  | nil => rfl
  | cons r rest ih =>
    have h1 := ih (fun r' hr' => h r' (List.mem_cons_of_mem r hr'))
    by_cases hm : r.matches n
    · have hdec := h r (List.mem_cons_self r rest) hm
      have hnone : lastDeclValue r.declarations key = none := by
        apply lastDeclValue_eq_none
        intro d hd
        simp [Rule.declares] at hdec
        exact hdec d hd
      simp [lastRuleValue, h1, hm, hnone]
    · simp [lastRuleValue, h1, hm]

theorem cascadeMap_no_match (n : Node) (s : Stylesheet)
    (h : ∀ r ∈ s.rules, r.matches n = false) :
    cascadeMap n s = PropertyMap.empty := by
  unfold cascadeMap applyMatchedRules
  have hfilter : s.rules.filter (fun r => r.matches n) = [] := by
    simp only [List.filter_eq_nil_iff]
    intro r hr
    simp [h r hr]
  rw [hfilter]
  rfl

/-- C3: when no matching rule declares `display`, the resolved
`display` is the keyword `inline` (and the node is not pruned); when
resolution returns `Some` and no matching rule declares `font-weight`,
the resolved `font-weight` is the keyword `normal`; and a node matched
by no rule at all resolves to `Some` with a property map consisting of
exactly the two defaulted entries. -/
theorem default_properties (n : Node) (s : Stylesheet) :
    ((∀ r ∈ s.rules, r.matches n = true → r.declares "display" = false) →
      displayedValue n s = CSSValue.Keyword "inline"
      ∧ ¬ to_styled_node n s = none
      ∧ ∀ sn, to_styled_node n s = some sn →
          sn.properties.get "display" = some (CSSValue.Keyword "inline"))
    ∧ (∀ sn, to_styled_node n s = some sn →
        (∀ r ∈ s.rules, r.matches n = true →
          r.declares "font-weight" = false) →
        sn.properties.get "font-weight" =
          some (CSSValue.Keyword "normal"))
    ∧ ((∀ r ∈ s.rules, r.matches n = false) →
        to_styled_node n s =
          some (StyledNode.mk n.node_type
            [("display", CSSValue.Keyword "inline"),
             ("font-weight", CSSValue.Keyword "normal")]
            (to_styled_nodes n.children s))) := by
  refine ⟨fun h => ?_, fun sn hsn h => ?_, fun h => ?_⟩
  · have hnone : lastRuleValue s.rules n "display" = none :=
      lastRuleValue_eq_none s.rules n "display" h
    have hcget : (applyMatchedRules PropertyMap.empty n s.rules).get
        "display" = none := (cascade_get n s "display").trans hnone
    have hdv : displayedValue n s = CSSValue.Keyword "inline" := by
      unfold displayedValue defaultedValue
      rw [hcget]
    refine ⟨hdv, ?_, fun sn hsn => ?_⟩
    · rw [to_styled_node_eq_none_iff, resolveProperties_eq_none_iff, hdv]
      simp
    · have hp := (to_styled_node_some n s sn hsn).1
      rw [resolveProperties_get n s sn.properties hp "display",
        if_pos rfl, hdv]
  · have hnone : lastRuleValue s.rules n "font-weight" = none :=
      lastRuleValue_eq_none s.rules n "font-weight" h
    have hcget : (applyMatchedRules PropertyMap.empty n s.rules).get
        "font-weight" = none := (cascade_get n s "font-weight").trans hnone
    have hp := (to_styled_node_some n s sn hsn).1
    rw [resolveProperties_get n s sn.properties hp "font-weight",
      if_neg fw_ne_display, if_pos rfl]
    unfold defaultedValue
    rw [hcget]
  · have hcascade : cascadeMap n s = PropertyMap.empty :=
      cascadeMap_no_match n s h
    have hAD : afterDisplay n s =
        [("display", CSSValue.Keyword "inline")] := by
      unfold afterDisplay
      rw [hcascade]
      rfl
    have hrp : resolveProperties n s =
        some [("display", CSSValue.Keyword "inline"),
              ("font-weight", CSSValue.Keyword "normal")] := by
      rw [resolveProperties_eq, hAD]
      rfl
    cases n with
    | mk nt children =>
      rw [to_styled_node_eq, hrp]
      rfl

/-- Witness for C3: a `<p>` element under the empty stylesheet gets
exactly the two defaulted entries. -/
theorem default_properties_witness :
    styledPDefault.properties.get "font-weight" =
      some (CSSValue.Keyword "normal")
    ∧ to_styled_node exP emptySheet =
        some (StyledNode.mk exP.node_type
          [("display", CSSValue.Keyword "inline"),
           ("font-weight", CSSValue.Keyword "normal")]
          (to_styled_nodes exP.children emptySheet))
    ∧ displayedValue exP emptySheet = CSSValue.Keyword "inline" :=
  ⟨(default_properties exP emptySheet).2.1 styledPDefault rfl
      (by simp [emptySheet]),
   (default_properties exP emptySheet).2.2 (by simp [emptySheet]),
   ((default_properties exP emptySheet).1 (by simp [emptySheet])).1⟩

mutual

theorem inner_text_spec : ∀ n : Node, textLeaves n = true →
    Node.inner_text n = preorderTextsList (Node.children n)
  | .mk nt children, h => by
    have hl : textLeavesList children = true := by
      unfold textLeaves at h
      exact (Bool.and_eq_true_iff.mp h).2
    show innerTextPieces children = _
    simp only [Node.children]
    exact innerTextPieces_spec children hl

theorem innerTextPieces_spec : ∀ l : List Node, textLeavesList l = true →
    innerTextPieces l = preorderTextsList l
  | [], _ => rfl
  | c :: rest, h => by
    have h1 : textLeaves c = true := by
      unfold textLeavesList at h
      exact (Bool.and_eq_true_iff.mp h).1
    have h2 : textLeavesList rest = true := by
      unfold textLeavesList at h
      exact (Bool.and_eq_true_iff.mp h).2
    unfold innerTextPieces preorderTextsList
    cases c with
    | mk nt cs =>
      cases nt with
      | text t =>
        have hempty : cs.isEmpty = true := by
          unfold textLeaves at h1
          have := (Bool.and_eq_true_iff.mp h1).1
          simpa using this
        have hcs : cs = [] := by
          cases cs
          · rfl
          · simp [List.isEmpty] at hempty
        subst hcs
        show t.data ++ innerTextPieces rest =
          (t.data ++ preorderTextsList []) ++ preorderTextsList rest
        rw [innerTextPieces_spec rest h2]
        show t.data ++ preorderTextsList rest =
          (t.data ++ "") ++ preorderTextsList rest
        rw [String.append_empty]
      | element e =>
        have hrec : Node.inner_text (Node.mk (NodeType.element e) cs) =
            preorderTextsList cs :=
          inner_text_spec (Node.mk (.element e) cs) h1
        show Node.inner_text (Node.mk (NodeType.element e) cs) ++
            innerTextPieces rest =
          preorderTextsList cs ++ preorderTextsList rest
        rw [hrec, innerTextPieces_spec rest h2]

end

/-- Counterexample for C4: on a chain of `Text` nodes the claim fails —
`inner_text` skips the node's own payload and does not descend below a
`Text` child, so it returns "b" while the pre-order concatenation of
the node's and its descendants' payloads is "abc". -/
theorem inner_text_not_preorder :
    ¬ Node.inner_text textChain = preorderTexts textChain := by
  decide

/-- C4 (amended): for every node in which every `Text` node is a leaf,
`inner_text()` returns the concatenation, in document order
(depth-first, pre-order, no separator), of the text payloads of the
node's strict descendants; the node's own payload is excluded. -/
theorem inner_text_amended (n : Node) (h : textLeaves n = true) :
    n.inner_text = preorderTextsList n.children :=
  inner_text_spec n h

/-- Witness for C4 (amended): evaluated on
`<div>"a"<p>"b"</p></div>`, whose `Text` nodes are leaves. -/
theorem inner_text_amended_witness :
    textLeaves exTree = true ∧
      exTree.inner_text = preorderTextsList exTree.children :=
  ⟨by decide, inner_text_amended exTree (by decide)⟩

theorem resolve_step_hasRequired : ∀ (n : Node) (s : Stylesheet)
    (sn : StyledNode), to_styled_node n s = some sn →
    hasRequiredProps sn = true := by
  intro n s sn h
  have hp := (to_styled_node_some n s sn h).1
  have hd := resolveProperties_get n s sn.properties hp "display"
  have hf := resolveProperties_get n s sn.properties hp "font-weight"
  rw [if_pos rfl] at hd
  rw [if_neg fw_ne_display, if_pos rfl] at hf
  unfold hasRequiredProps
  rw [hd, hf]
  rfl

theorem resolve_step_displayNotNone : ∀ (n : Node) (s : Stylesheet)
    (sn : StyledNode), to_styled_node n s = some sn →
    displayNotNone sn = true := by
  intro n s sn h
  have hp := (to_styled_node_some n s sn h).1
  have hd := resolveProperties_get n s sn.properties hp "display"
  rw [if_pos rfl] at hd
  have hne : ¬ displayedValue n s = CSSValue.Keyword "none" := by
    intro hcon
    have hnone := (resolveProperties_eq_none_iff n s).mpr hcon
    rw [hnone] at hp
    cases hp
  unfold displayNotNone
  rw [Bool.and_eq_true, decide_eq_true_iff, decide_eq_true_iff]
  constructor
  · rw [hd]
    intro hcon
    exact hne (Option.some.inj hcon)
  · unfold StyledNode.display
    rw [hd]
    cases hv : displayedValue n s with
    | Keyword str =>
      by_cases hb : str = "block"
      · simp [hb]
      · have hn : ¬ str = "none" := by
          intro hcon
          rw [hcon] at hv
          exact hne hv
        simp [hb, hn]
    | Length len => simp

mutual

theorem to_styled_node_allTree (p : StyledNode → Bool)
    (hp : ∀ (n : Node) (s : Stylesheet) (sn : StyledNode),
      to_styled_node n s = some sn → p sn = true) :
    ∀ (n : Node) (s : Stylesheet) (sn : StyledNode),
      to_styled_node n s = some sn → allTree p sn = true
  | .mk nt children, s, sn, h => by
    have hsome := to_styled_node_some (Node.mk nt children) s sn h
    have hps : p sn = true := hp (Node.mk nt children) s sn h
    cases sn with
    | mk snt sprops schildren =>
      have hch : schildren = to_styled_nodes children s := hsome.2.2
      show (p (StyledNode.mk snt sprops schildren) &&
        allTreeList p schildren) = true
      rw [Bool.and_eq_true]
      refine ⟨hps, ?_⟩
      rw [hch]
      exact to_styled_nodes_allTree p hp children s

theorem to_styled_nodes_allTree (p : StyledNode → Bool)
    (hp : ∀ (n : Node) (s : Stylesheet) (sn : StyledNode),
      to_styled_node n s = some sn → p sn = true) :
    ∀ (l : List Node) (s : Stylesheet),
      allTreeList p (to_styled_nodes l s) = true
  | [], _ => rfl
  | c :: rest, s => by
    rw [to_styled_nodes_cons]
    cases hc : to_styled_node c s with
    | none =>
      show allTreeList p (to_styled_nodes rest s) = true
      exact to_styled_nodes_allTree p hp rest s
    | some sn =>
      show (allTree p sn && allTreeList p (to_styled_nodes rest s)) = true
      rw [Bool.and_eq_true]
      exact ⟨to_styled_node_allTree p hp c s sn hc,
        to_styled_nodes_allTree p hp rest s⟩

end

/-- C5: every styled node in a tree returned by `to_styled_node` — the
root and every descendant — has both a `display` and a `font-weight`
entry in its property map. -/
theorem styled_tree_has_required_props (n : Node) (s : Stylesheet)
    (sn : StyledNode) (h : to_styled_node n s = some sn) :
    allTree hasRequiredProps sn = true :=
  to_styled_node_allTree hasRequiredProps resolve_step_hasRequired n s sn h

/-- Witness for C5: evaluated on the `<div><p/></div>` tree under the
empty stylesheet. -/
theorem styled_tree_has_required_props_witness :
    allTree hasRequiredProps styledDivDefault = true :=
  styled_tree_has_required_props exDiv emptySheet styledDivDefault rfl

/-- C9: no styled node anywhere in a tree returned by `to_styled_node`
has `display` equal to the keyword `none`, and `display()` never
returns `Display.None` on such a node. -/
theorem styled_tree_display_not_none (n : Node) (s : Stylesheet)
    (sn : StyledNode) (h : to_styled_node n s = some sn) :
    allTree displayNotNone sn = true :=
  to_styled_node_allTree displayNotNone resolve_step_displayNotNone n s sn h

/-- Witness for C9: evaluated on the `<p>` element under the
two-rule override stylesheet. -/
theorem styled_tree_display_not_none_witness :
    allTree displayNotNone styledP = true :=
  styled_tree_display_not_none exP overrideSheet styledP rfl

mutual

theorem to_styled_node_size : ∀ (n : Node) (s : Stylesheet)
    (sn : StyledNode), to_styled_node n s = some sn →
    StyledNode.size sn ≤ Node.size n
  | .mk nt children, s, sn, h => by
    have hsome := to_styled_node_some (Node.mk nt children) s sn h
    cases sn with
    | mk snt sprops schildren =>
      have hch : schildren = to_styled_nodes children s := hsome.2.2
      show 1 + styledSizeList schildren ≤ 1 + sizeList children
      rw [hch]
      exact Nat.add_le_add_left (to_styled_nodes_size children s) 1

theorem to_styled_nodes_size : ∀ (l : List Node) (s : Stylesheet),
    styledSizeList (to_styled_nodes l s) ≤ sizeList l
  | [], _ => Nat.le_refl 0
  | c :: rest, s => by
    rw [to_styled_nodes_cons]
    cases hc : to_styled_node c s with
    | none =>
      show styledSizeList (to_styled_nodes rest s) ≤
        Node.size c + sizeList rest
      exact Nat.le_trans (to_styled_nodes_size rest s)
        (Nat.le_add_left _ _)
    | some sn =>
      show StyledNode.size sn + styledSizeList (to_styled_nodes rest s) ≤
        Node.size c + sizeList rest
      exact Nat.add_le_add (to_styled_node_size c s sn hc)
        (to_styled_nodes_size rest s)

end

/-- C8: resolution is total in this embedding (a structurally
recursive function over the finite tree), and its recursion is bounded
by the input: the styled tree never has more nodes than the source
tree, and a child list resolves to at most as many styled nodes. -/
theorem resolve_size_bound (n : Node) (s : Stylesheet) :
    (∀ sn, to_styled_node n s = some sn →
      StyledNode.size sn ≤ Node.size n)
    ∧ styledSizeList (to_styled_nodes n.children s) ≤
        sizeList n.children :=
  ⟨fun sn h => to_styled_node_size n s sn h,
   to_styled_nodes_size n.children s⟩

/-- Witness for C8: the size bound evaluated on `<div><p/></div>`. -/
theorem resolve_size_bound_witness :
    StyledNode.size styledDivDefault ≤ Node.size exDiv :=
  (resolve_size_bound exDiv emptySheet).1 styledDivDefault rfl

/-- C6: `display()` classifies the `display` property: keyword
`block` gives `Block`, keyword `none` gives `None`, any other keyword
gives `Inline`, a present non-`Keyword` value gives `Inline`, and a
missing entry gives `Inline` — it is a total function, so no error is
raised. -/
theorem display_classification (sn : StyledNode) :
    (sn.properties.get "display" = some (CSSValue.Keyword "block") →
      sn.display = Display.Block)
    ∧ (sn.properties.get "display" = some (CSSValue.Keyword "none") →
      sn.display = Display.None)
    ∧ (∀ str, sn.properties.get "display" =
          some (CSSValue.Keyword str) →
        ¬ str = "block" → ¬ str = "none" → sn.display = Display.Inline)
    ∧ (∀ len, sn.properties.get "display" =
          some (CSSValue.Length len) → sn.display = Display.Inline)
    ∧ (sn.properties.get "display" = none →
      sn.display = Display.Inline) := by
  refine ⟨fun h => ?_, fun h => ?_, fun str h h1 h2 => ?_,
    fun len h => ?_, fun h => ?_⟩
  · simp [StyledNode.display, h]
  · simp [StyledNode.display, h]
  · simp [StyledNode.display, h, h1, h2]
  · simp [StyledNode.display, h]
  · simp [StyledNode.display, h]

/-- Witness for C6: each classification case evaluated on a concrete
styled node. -/
theorem display_classification_witness :
    (StyledNode.mk (.element ⟨"d", []⟩)
      [("display", CSSValue.Keyword "block")] []).display = Display.Block
    ∧ (StyledNode.mk (.element ⟨"d", []⟩)
      [("display", CSSValue.Keyword "none")] []).display = Display.None
    ∧ (StyledNode.mk (.element ⟨"d", []⟩)
      [("display", CSSValue.Keyword "flex")] []).display = Display.Inline
    ∧ (StyledNode.mk (.element ⟨"d", []⟩)
      [("display", CSSValue.Length 3)] []).display = Display.Inline
    ∧ (StyledNode.mk (.element ⟨"d", []⟩) [] []).display =
        Display.Inline :=
  ⟨(display_classification _).1 rfl,
   (display_classification _).2.1 rfl,
   (display_classification _).2.2.1 "flex" rfl (by decide) (by decide),
   (display_classification _).2.2.2.1 3 rfl,
   (display_classification _).2.2.2.2 rfl⟩

end MiniBrowser
